import Mathlib

/-!
# Verification of the incremental synchronization engine

Shallow embedding of the analytics pipeline sources
(`analytics/extractor.py`, `analytics/loader.py`,
`analytics/flows/main_pipeline.py`) and proofs about the claims of the
specification.

Conventions of the embedding:
* Mongo/BSON documents and JSON values are modelled by the inductive
  `Value`; `Value.vnull` plays the role of Python `None` (BSON keys are
  always strings, so object fields are keyed by `String`).
* Timestamps are UTC microseconds since the epoch, as `Int`.
* Python code that can raise is modelled in `Except PyErr`; code with no
  failure path is a plain function.
-/

set_option autoImplicit false

namespace Analytics

/-- Python exceptions that the modelled code can raise. -/
inductive PyErr where
  | typeError
  | attributeError
  | ioError
  deriving DecidableEq, Repr

/-- A Python/BSON value: `None`, booleans, integers, strings, datetimes
(as UTC microseconds), arrays and string-keyed objects. -/
inductive Value where
  | vnull
  | vbool (b : Bool)
  | vint (n : Int)
  | vstr (s : String)
  | vdt (t : Int)
  | varr (xs : List Value)
  | vobj (fields : List (String × Value))

/-- A MongoDB document: the field list of a BSON object. -/
abbrev PyDict := List (String × Value)

/-- `fields.find?` on the raw field list: the value stored under `k`, if
the key is present at all (a stored `None` is `some .vnull`). -/
def getField (fs : PyDict) (k : String) : Option Value :=
  (fs.find? (fun p => p.1 = k)).map (fun p => p.2)

/-- Python `d.get(k)`: `None` when the key is absent. -/
def pyGet (fs : PyDict) (k : String) : Value :=
  match getField fs k with
  | some v => v
  | none => Value.vnull

/-- Python `d.get(k, dflt)`: the default is used only when the key is
absent (a stored `None` is returned as `None`). -/
def pyGetD (fs : PyDict) (k : String) (dflt : Value) : Value :=
  match getField fs k with
  | some v => v
  | none => dflt

/-- Python truthiness of a value (`if v:`). -/
def pyTruthy : Value → Bool
  | .vnull => false
  | .vbool b => b
  | .vint n => n != 0
  | .vstr s => s.length != 0
  | .vdt _ => true
  | .varr xs => xs.length != 0
  | .vobj fs => fs.length != 0

/-- Python `v == s` for a string literal `s`: true exactly when `v` is an
equal string (no cross-type equality is involved for the literals the
code compares against). -/
def isStrEq (v : Value) (s : String) : Bool :=
  match v with
  | .vstr t => t = s
  | _ => false

/-- Quote and minimally escape a string for JSON output. -/
def jsonQuote (s : String) : String :=
  "\"" ++ ((s.replace "\\" "\\\\").replace "\"" "\\\"") ++ "\""

/-- `str()` of a datetime in the model (abstract but injective rendering). -/
def dtStr (t : Int) : String :=
  "datetime(" ++ toString t ++ ")"

mutual

/-- Model of `json.dumps(v, default=str)`: total on the modelled values;
datetimes go through `default=str`. -/
def jsonDumps : Value → String
  | .vnull => "null"
  | .vbool b => if b then "true" else "false"
  | .vint n => toString n
  | .vstr s => jsonQuote s
  | .vdt t => jsonQuote (dtStr t)
  | .varr xs => "[" ++ String.intercalate ", " (jsonDumpsArr xs) ++ "]"
  | .vobj fs => "\x7b" ++ String.intercalate ", " (jsonDumpsObj fs) ++ "\x7d"

def jsonDumpsArr : List Value → List String
  | [] => []
  | v :: vs => jsonDumps v :: jsonDumpsArr vs

def jsonDumpsObj : List (String × Value) → List String
  | [] => []
  | (k, v) :: fs => (jsonQuote k ++ ": " ++ jsonDumps v) :: jsonDumpsObj fs

end

mutual

/-- Python `repr` for container values (used by `str` on lists/dicts). -/
def pyRepr : Value → String
  | .vnull => "None"
  | .vbool b => if b then "True" else "False"
  | .vint n => toString n
  | .vstr s => "'" ++ s ++ "'"
  | .vdt t => dtStr t
  | .varr xs => "[" ++ String.intercalate ", " (pyReprArr xs) ++ "]"
  | .vobj fs => "\x7b" ++ String.intercalate ", " (pyReprObj fs) ++ "\x7d"

def pyReprArr : List Value → List String
  | [] => []
  | v :: vs => pyRepr v :: pyReprArr vs

def pyReprObj : List (String × Value) → List String
  | [] => []
  | (k, v) :: fs => ("'" ++ k ++ "': " ++ pyRepr v) :: pyReprObj fs

end

/-- Python `str(v)`. Never raises. -/
def pyStr (v : Value) : String :=
  match v with
  | .vnull => "None"
  | .vbool b => if b then "True" else "False"
  | .vint n => toString n
  | .vstr s => s
  | .vdt t => dtStr t
  | .varr xs => pyRepr (.varr xs)
  | .vobj fs => pyRepr (.vobj fs)

/-- The element traversal of `str.join`: each element must be a string,
otherwise `TypeError` is raised at the first offender. -/
def pyJoinStrs : List Value → Except PyErr (List String)
  | [] => .ok []
  | v :: vs =>
      match v with
      | Value.vstr s =>
          match pyJoinStrs vs with
          | .ok ss => .ok (s :: ss)
          | .error e => .error e
      | _ => .error PyErr.typeError

/-- `sep.join(parts)`: raises `TypeError` unless every element is a
string. -/
def pyJoin (sep : String) (parts : List Value) : Except PyErr String :=
  match pyJoinStrs parts with
  | .ok strs => .ok (String.intercalate sep strs)
  | .error e => .error e

/-! ## Timestamp parsing (`datetime.fromisoformat` model) -/

/-- Microseconds per day. -/
def usPerDay : Int := 86400000000

/-- Gregorian leap year. -/
def isLeap (y : Int) : Bool :=
  (Int.emod y 4 = 0 && Int.emod y 100 != 0) || Int.emod y 400 = 0

/-- Days in a month of the proleptic Gregorian calendar. -/
def daysInMonth (y m : Int) : Int :=
  if m = 2 then (if isLeap y then 29 else 28)
  else if m = 4 || m = 6 || m = 9 || m = 11 then 30
  else 31

/-- Days from the epoch 1970-01-01 to civil date `y-m-d` (valid inputs). -/
def daysFromCivil (y m d : Int) : Int :=
  let y' := if m ≤ 2 then y - 1 else y
  let era := Int.fdiv y' 400
  let yoe := y' - era * 400
  let mp := Int.emod (m + 9) 12
  let doy := Int.fdiv (153 * mp + 2) 5 + d - 1
  let doe := yoe * 365 + Int.fdiv yoe 4 - Int.fdiv yoe 100 + doy
  era * 146097 + doe - 719468

/-- Split a character list at every occurrence of `sep` (like
`str.split(sep)`, keeping empty pieces). -/
def chSplitOn (sep : Char) : List Char → List (List Char)
  | [] => [[]]
  | c :: cs =>
      let r := chSplitOn sep cs
      if c = sep then [] :: r
      else
        match r with
        | [] => [[c]]
        | p :: ps => (c :: p) :: ps

/-- `s.replace("Z", "+00:00")` at the character level. -/
def chReplaceZ : List Char → List Char
  | [] => []
  | c :: cs =>
      if c = 'Z' then '+' :: '0' :: '0' :: ':' :: '0' :: '0' :: chReplaceZ cs
      else c :: chReplaceZ cs

/-- Decimal digits to a number. -/
def digitsToNat (l : List Char) : Nat :=
  l.foldl (fun n c => n * 10 + (c.toNat - 48)) 0

/-- Parse a fixed-width decimal field. -/
def parseFixedNat (l : List Char) (len : Nat) : Option Nat :=
  if l.length = len && l.all Char.isDigit then some (digitsToNat l) else none

/-- Parse `"YYYY-MM-DD"` into days since the epoch, validating the
calendar date. -/
def parseDateStr (l : List Char) : Option Int :=
  match chSplitOn '-' l with
  | [ys, ms, ds] => do
      let y ← parseFixedNat ys 4
      let m ← parseFixedNat ms 2
      let d ← parseFixedNat ds 2
      if 1 ≤ m && m ≤ 12 && 1 ≤ d && (d : Int) ≤ daysInMonth y m then
        pure (daysFromCivil y m d)
      else none
  | _ => none

/-- Parse a fraction of a second (1 to 6 digits) into microseconds. -/
def parseFrac (l : List Char) : Option Nat :=
  if 1 ≤ l.length && l.length ≤ 6 && l.all Char.isDigit then
    some (digitsToNat l * 10 ^ (6 - l.length))
  else none

/-- Parse `"HH:MM"`, `"HH:MM:SS"` or `"HH:MM:SS.ffffff"` into
microseconds within the day. -/
def parseClock (l : List Char) : Option Int :=
  match chSplitOn ':' l with
  | [hs, ms] => do
      let h ← parseFixedNat hs 2
      let m ← parseFixedNat ms 2
      if h ≤ 23 && m ≤ 59 then pure (((h * 60 + m) * 60) * 1000000 : Nat)
      else none
  | [hs, ms, rest] => do
      let h ← parseFixedNat hs 2
      let m ← parseFixedNat ms 2
      let (ss, frac) ←
        match chSplitOn '.' rest with
        | [ss] => some (ss, (0 : Nat))
        | [ss, fs] => do
            let f ← parseFrac fs
            pure (ss, f)
        | _ => none
      let sec ← parseFixedNat ss 2
      if h ≤ 23 && m ≤ 59 && sec ≤ 59 then
        pure ((((h * 60 + m) * 60 + sec) * 1000000 + frac : Nat))
      else none
  | _ => none

/-- Parse a UTC-offset suffix `"HH:MM"` into microseconds. -/
def parseOffsetStr (l : List Char) : Option Int :=
  match chSplitOn ':' l with
  | [hs, ms] => do
      let h ← parseFixedNat hs 2
      let m ← parseFixedNat ms 2
      if h ≤ 23 && m ≤ 59 then pure (((h * 60 + m) * 60) * 1000000 : Nat)
      else none
  | _ => none

/-- Parse the time-of-day part together with an optional explicit
offset; the result is microseconds within the day already converted to
UTC (an aware datetime is converted to UTC, a naive one is taken as
UTC, matching `parse_timestamp`). -/
def parseTimeWithOffset (l : List Char) : Option Int :=
  if l.any (fun c => c = '+') then
    match chSplitOn '+' l with
    | [core, offs] => do
        let tm ← parseClock core
        let off ← parseOffsetStr offs
        pure (tm - off)
    | _ => none
  else if l.any (fun c => c = '-') then
    match chSplitOn '-' l with
    | [core, offs] => do
        let tm ← parseClock core
        let off ← parseOffsetStr offs
        pure (tm + off)
    | _ => none
  else parseClock l

/-- Model of `datetime.fromisoformat` on the canonical layouts the
pipeline produces (`YYYY-MM-DD[THH:MM[:SS[.ffffff]][±HH:MM]]`); `none`
models `ValueError`. -/
def fromisoformat (s : String) : Option Int :=
  match chSplitOn 'T' s.data with
  | [d] => do
      let dd ← parseDateStr d
      pure (dd * usPerDay)
  | [d, t] => do
      let dd ← parseDateStr d
      let tm ← parseTimeWithOffset t
      pure (dd * usPerDay + tm)
  | _ => none

/-- UTC calendar day (`datetime.date()`) of a timestamp, as days since
the epoch. -/
def dateOf (t : Int) : Int := Int.fdiv t usPerDay

/-! ## `DocumentTransformer` (analytics/extractor.py) -/

namespace DocumentTransformer

/-- One iteration of the content-block loop of `flatten_message`: the
element appended to `text_parts` for this block, if any.  Text blocks
contribute their raw `text` value (default `""`), `tool_use` blocks a
bracketed tool name, `tool_result` blocks a fixed placeholder, plain
strings themselves; everything else is skipped. -/
def partOf (block : Value) : Option Value :=
  match block with
  | .vobj bfs =>
      if isStrEq (pyGet bfs "type") "text" then
        some (pyGetD bfs "text" (Value.vstr ""))
      else if isStrEq (pyGet bfs "type") "tool_use" then
        some (.vstr ("[tool_use: " ++ pyStr (pyGetD bfs "name" (Value.vstr "unknown")) ++ "]"))
      else if isStrEq (pyGet bfs "type") "tool_result" then
        some (.vstr "[tool_result]")
      else none
  | .vstr s => some (.vstr s)
  | _ => none

/-- The content-massaging block of `flatten_message`: a list of blocks
is projected through the block loop and joined with newlines (the join
raises `TypeError` when a collected part is not a string, and an empty
part list yields `None`); a string is kept; `None` is kept; any other
scalar is stringified. -/
def flattenContent (content0 : Value) : Except PyErr Value :=
  match content0 with
  | Value.varr blocks =>
      let text_parts := blocks.filterMap partOf
      if text_parts.isEmpty then pure Value.vnull
      else do
        let j ← pyJoin "\n" text_parts
        pure (Value.vstr j)
  | Value.vstr s => pure (Value.vstr s)
  | Value.vnull => pure Value.vnull
  | c => pure (Value.vstr (pyStr c))

/-- `DocumentTransformer.flatten_message`: returns `(role, content,
raw_json)`; for a dict the raw JSON is serialized only when the dict is
truthy (non-empty). -/
def flatten_message (message : Value) : Except PyErr (Value × Value × Value) :=
  match message with
  | .vnull => .ok (.vnull, .vnull, .vnull)
  | .vstr s => .ok (.vnull, .vstr s, .vnull)
  | .vobj fs => do
      let role := pyGet fs "role"
      let content ← flattenContent (pyGet fs "content")
      let raw :=
        if pyTruthy (Value.vobj fs) then Value.vstr (jsonDumps (Value.vobj fs))
        else Value.vnull
      pure (role, content, raw)
  | m => .ok (.vnull, .vnull, .vstr (jsonDumps m))

/-- `DocumentTransformer.parse_timestamp`: `None` for `None`, datetimes
kept (naive ones taken as UTC), ISO strings parsed with a trailing `Z`
rewritten to `+00:00` (`ValueError` is caught and becomes `None`), and
any other type mapped to `None`. -/
def parse_timestamp (ts : Value) : Option Int :=
  match ts with
  | .vnull => none
  | .vdt t => some t
  | .vstr s => fromisoformat (String.mk (chReplaceZ s.data))
  | _ => none

end DocumentTransformer

/-- The flat record produced by `DocumentTransformer.transform`, one row
of the `raw.conversations` table / Iceberg schema. -/
structure NormalizedRecord where
  _id : String
  type : Value
  session_id : Value
  project_id : Value
  timestamp : Option Int
  ingested_at : Option Int
  extracted_at : Int
  message_role : Value
  message_content : Value
  message_raw : Value
  source_file : Value
  date : Int

namespace DocumentTransformer

/-- `DocumentTransformer.transform`: flatten the message, parse the
timestamps, derive the partition date (timestamp, else ingestion time,
else extraction time) and build the flat record; `_id` is
`str(doc.get("_id", ""))`. -/
def transform (doc : PyDict) (extracted_at : Int) :
    Except PyErr NormalizedRecord := do
  let (message_role, message_content, message_raw) ←
    flatten_message (pyGet doc "message")
  let timestamp := parse_timestamp (pyGet doc "timestamp")
  let ingested_at := parse_timestamp (pyGet doc "ingestedAt")
  let partition_date :=
    match timestamp with
    | some t => dateOf t
    | none =>
        match ingested_at with
        | some t => dateOf t
        | none => dateOf extracted_at
  pure
    { _id := pyStr (pyGetD doc "_id" (Value.vstr ""))
      type := pyGet doc "type"
      session_id := pyGet doc "sessionId"
      project_id := pyGet doc "projectId"
      timestamp := timestamp
      ingested_at := ingested_at
      extracted_at := extracted_at
      message_role := message_role
      message_content := message_content
      message_raw := message_raw
      source_file := pyGet doc "sourceFile"
      date := partition_date }

end DocumentTransformer

/-! ## `HighWaterMark` (analytics/extractor.py) -/

/-- The observable content of the watermark file at the `json.loads`
boundary: the file is missing, its bytes are not valid JSON
(`json.JSONDecodeError`), or they parse to the JSON value `v`. -/
inductive FileContent where
  | missing
  | invalid
  | json (v : Value)

namespace HighWaterMark

/-- `HighWaterMark.get`: `None` for a missing file; `json.loads` errors
and `fromisoformat` `ValueError`s are caught (`None`); but
`data.get(...)` on a non-object top level raises `AttributeError`, and
`fromisoformat` on a truthy non-string raises `TypeError`, neither of
which the `except (json.JSONDecodeError, ValueError)` clause catches. -/
def get : FileContent → Except PyErr (Option Int)
  | .missing => .ok none
  | .invalid => .ok none
  | .json v =>
      match v with
      | .vobj fs =>
          let ts := pyGet fs "last_extracted_at"
          if pyTruthy ts then
            match ts with
            | .vstr s =>
                match fromisoformat s with
                | some t => .ok (some t)
                | none => .ok none
            | _ => .error .typeError
          else .ok none
      | _ => .error .attributeError

end HighWaterMark

/-! ## `DuckDBLoader` (analytics/loader.py) -/

namespace DuckDBLoader

/-- Application of one incoming record with
`ON CONFLICT (_id) DO UPDATE SET …` semantics: on a key collision every
non-key column is overwritten (the whole row is replaced, the key being
equal); otherwise the row is inserted. -/
def upsertRow (t : List NormalizedRecord) (r : NormalizedRecord) :
    List NormalizedRecord :=
  if r._id ∈ t.map NormalizedRecord._id then
    t.map (fun p => if p._id = r._id then r else p)
  else t ++ [r]

/-- The `INSERT … SELECT … ON CONFLICT` statement: every record read
from intermediate storage is applied in order. -/
def upsertAll (t : List NormalizedRecord) (rs : List NormalizedRecord) :
    List NormalizedRecord :=
  rs.foldl upsertRow t

/-- `DuckDBLoader.load_from_iceberg` on table state `t` and the records
`rs` currently in intermediate storage: count the rows, delete them all
when `full_refresh`, upsert every record, and return the new table with
the reported row delta (`count_after - count_before`, or `count_after`
under a full refresh). -/
def load_from_iceberg (t : List NormalizedRecord) (rs : List NormalizedRecord)
    (full_refresh : Bool) : List NormalizedRecord × Int :=
  let count_before : Int := t.length
  let t1 := if full_refresh then [] else t
  let t2 := upsertAll t1 rs
  let count_after : Int := t2.length
  (t2, if full_refresh then count_after else count_after - count_before)

/-- Does the character list `hay` start with `pat`? -/
def subAt : List Char → List Char → Bool
  | [], _ => true
  | _ :: _, [] => false
  | a :: as, b :: bs => a = b && subAt as bs

/-- Substring occurrence on character lists (Python `pat in hay`). -/
def hasSub (hay pat : List Char) : Bool :=
  match hay with
  | [] => pat.isEmpty
  | _ :: t => subAt pat hay || hasSub t pat

/-- The lock-contention classification of `DuckDBLoader.connect`:
`"lock" in str(e).lower() or "conflicting" in str(e).lower()`. -/
def isLockMsg (msg : String) : Bool :=
  let l := msg.data.map Char.toLower
  hasSub l "lock".data || hasSub l "conflicting".data

/-- Outcome of one `duckdb.connect` attempt: success, or a
`duckdb.IOException` carrying `str(e)`. -/
inductive ConnOutcome where
  | success
  | ioError (msg : String)
  deriving DecidableEq

/-- Is the attempt outcome a lock-classified `IOException`? -/
def isLockOutcome : ConnOutcome → Bool
  | .success => false
  | .ioError m => isLockMsg m

def LOCK_RETRY_MAX_ATTEMPTS : Nat := 5

def LOCK_RETRY_BASE_DELAY : Nat := 2

def LOCK_RETRY_MAX_DELAY : Nat := 30

/-- The backoff slept after failed attempt `attempt` (0-based):
`min(base * 2 ** attempt, cap)`. -/
def retryDelay (attempt : Nat) : Nat :=
  min (LOCK_RETRY_BASE_DELAY * 2 ^ attempt) LOCK_RETRY_MAX_DELAY

/-- The retry loop of `DuckDBLoader.connect` over the per-attempt
outcomes `f`: returns the successful attempt index or the raised
exception message (`none` = the `raise last_error` with no recorded
error, unreachable from `connect`), together with the list of sleeps
performed.  A lock-classified `IOException` sleeps and retries; any
other `IOException` is re-raised immediately; exhaustion raises the
last lock error. -/
def connectLoop (f : Nat → ConnOutcome) :
    Nat → Nat → Option String → Except (Option String) Nat × List Nat
  | 0, _, last => (.error last, [])
  | n + 1, attempt, _ =>
      match f attempt with
      | .success => (.ok attempt, [])
      | .ioError msg =>
          if isLockMsg msg then
            ((connectLoop f n (attempt + 1) (some msg)).1,
              retryDelay attempt :: (connectLoop f n (attempt + 1) (some msg)).2)
          else (.error (some msg), [])

/-- `DuckDBLoader.connect`: the retry loop started at attempt 0 with
`LOCK_RETRY_MAX_ATTEMPTS` attempts remaining and no recorded error. -/
def connect (f : Nat → ConnOutcome) : Except (Option String) Nat × List Nat :=
  connectLoop f LOCK_RETRY_MAX_ATTEMPTS 0 none

end DuckDBLoader

/-! ## `IcebergExtractor` (analytics/extractor.py) -/

namespace IcebergExtractor

open DocumentTransformer

/-- The `latest_ingested_at` update for one record: kept unless the
record's `ingested_at` is non-null and larger (datetimes are always
truthy). -/
def maxStep (acc : Option Int) (v : Option Int) : Option Int :=
  match v with
  | none => acc
  | some x =>
      match acc with
      | none => some x
      | some m => some (if x > m then x else m)

/-- The parsed `ingested_at` a document contributes after `transform`. -/
def ingestedOf (d : PyDict) : Option Int :=
  parse_timestamp (pyGet d "ingestedAt")

/-- The maximum non-null ingestion timestamp observed over a run. -/
def maxIngested (docs : List PyDict) : Option Int :=
  docs.foldl (fun a d => maxStep a (ingestedOf d)) none

/-- The MongoDB filter `{"ingestedAt": {"$gt": since}}`: with a `since`,
only documents whose `ingestedAt` is a BSON datetime strictly greater
than it match (comparisons are type-bracketed, so non-datetime values
never match). -/
def mongoMatches (since : Option Int) (d : PyDict) : Bool :=
  match since with
  | none => true
  | some w =>
      match getField d "ingestedAt" with
      | some (.vdt ts) => w < ts
      | _ => false

/-- `.sort("ingestedAt", 1)` comparison: datetimes ascending, documents
without a datetime `ingestedAt` ordered first. -/
def ingLe (d1 d2 : PyDict) : Bool :=
  match getField d1 "ingestedAt", getField d2 "ingestedAt" with
  | some (.vdt a), some (.vdt b) => a ≤ b
  | some (.vdt _), _ => false
  | _, _ => true

/-- Insertion into an `ingLe`-sorted list. -/
def insertSorted (d : PyDict) : List PyDict → List PyDict
  | [] => [d]
  | x :: xs => if ingLe d x then d :: x :: xs else x :: insertSorted d xs

/-- Sort by ascending `ingestedAt` (insertion sort). -/
def sortByIngested (l : List PyDict) : List PyDict :=
  l.foldr insertSorted []

/-- `IcebergExtractor._fetch_documents`: the source collection filtered
by the time predicate and sorted ascending by `ingestedAt`. -/
def _fetch_documents (coll : List PyDict) (since : Option Int) : List PyDict :=
  sortByIngested (coll.filter (mongoMatches since))

/-- The document loop of `IcebergExtractor.extract`: transform each
document, accumulate the batch, track `latest_ingested_at`, flush when
the batch reaches `batchSize` (the `writeOk` oracle says whether the
`w`-th Iceberg append succeeds or raises), and flush the remainder at
the end.  Returns `latest_ingested_at` and the total count. -/
def extractGo (batchSize : Nat) (writeOk : Nat → Bool) (extracted_at : Int) :
    List PyDict → List NormalizedRecord → Option Int → Nat → Nat →
    Except PyErr (Option Int × Nat)
  | [], batch, latest, total, w =>
      if batch.isEmpty then .ok (latest, total)
      else if writeOk w then .ok (latest, total) else .error .ioError
  | d :: ds, batch, latest, total, w => do
      let record ← transform d extracted_at
      let batch' := batch ++ [record]
      let latest' := maxStep latest record.ingested_at
      if batch'.length ≥ batchSize then
        if writeOk w then
          extractGo batchSize writeOk extracted_at ds [] latest' (total + 1) (w + 1)
        else .error .ioError
      else extractGo batchSize writeOk extracted_at ds batch' latest' (total + 1) w

/-- `IcebergExtractor.extract` with the stored watermark `wm0`: fetch
the documents (since the watermark unless `full_backfill`), run the
document loop, and set the watermark to `latest_ingested_at` only when
the loop completed and a non-null ingestion timestamp was observed.
Returns the final watermark-store content and the outcome. -/
def extract (batchSize : Nat) (writeOk : Nat → Bool) (coll : List PyDict)
    (full_backfill : Bool) (extracted_at : Int) (wm0 : Option Int) :
    Option Int × Except PyErr Nat :=
  let since := if full_backfill then none else wm0
  match extractGo batchSize writeOk extracted_at
      (_fetch_documents coll since) [] none 0 0 with
  | .ok (latest, total) =>
      match latest with
      | some m => (some m, .ok total)
      | none => (wm0, .ok total)
  | .error e => (wm0, .error e)

end IcebergExtractor

/-! ## Metabase coordination (analytics/flows/main_pipeline.py) -/

namespace MainPipeline

/-- Outcome of one `docker stop/start <container>` invocation:
exit code 0; non-zero with `"No such container"` in stderr; non-zero
with any other stderr; `subprocess.TimeoutExpired`; `FileNotFoundError`
(docker CLI absent); any other exception. -/
inductive DockerRes where
  | exitOk
  | noSuch
  | otherFail
  | timeout
  | cliMissing
  | exc
  deriving DecidableEq

def METABASE_CONTAINERS : List String := ["metabase", "dbt-docs"]

/-- `_run_docker_command`: signal each container in turn, returning the
aggregate success flag and the containers actually signalled.  A
missing CLI returns `False` at once (and skips the rest); `"No such
container"` does not clear the success flag; every other failure clears
it but the loop continues. -/
def _run_docker_command (outcome : String → DockerRes) :
    List String → Bool × List String
  | [] => (true, [])
  | c :: rest =>
      match outcome c with
      | .cliMissing => (false, [])
      | .exitOk =>
          ((_run_docker_command outcome rest).1, c :: (_run_docker_command outcome rest).2)
      | .noSuch =>
          ((_run_docker_command outcome rest).1, c :: (_run_docker_command outcome rest).2)
      | _ =>
          (false, c :: (_run_docker_command outcome rest).2)

/-- `pause_metabase`: stop the containers (the settle sleep is not
modelled). -/
def pause_metabase (stopOutcome : String → DockerRes) : Bool × List String :=
  _run_docker_command stopOutcome METABASE_CONTAINERS

/-- `resume_metabase`: start the containers. -/
def resume_metabase (startOutcome : String → DockerRes) : Bool × List String :=
  _run_docker_command startOutcome METABASE_CONTAINERS

/-- Observable behaviour of one `with metabase_paused(...)` execution. -/
structure CoordRun where
  paused : Bool
  startSignaled : List String
  result : Except Unit Unit

/-- `metabase_paused`: pause, run the critical section (whose outcome
`cs` is propagated), and in the `finally` block resume — but only when
`pause_metabase` reported success. -/
def metabase_paused (stopOutcome startOutcome : String → DockerRes)
    (cs : Except Unit Unit) : CoordRun :=
  let p := (pause_metabase stopOutcome).1
  let startSignaled := if p then (resume_metabase startOutcome).2 else []
  { paused := p, startSignaled := startSignaled, result := cs }

end MainPipeline

/-! ## Claim C1: reader coordination cleanup -/

namespace MainPipeline

/-- When every stop signal for the listed containers either succeeded or
failed only with "No such container", `pause_metabase` reports success. -/
theorem run_docker_success_of (outcome : String → DockerRes) :
    ∀ l : List String, (∀ c ∈ l, outcome c = .exitOk ∨ outcome c = .noSuch) →
      (_run_docker_command outcome l).1 = true := by
  intro l
  induction l with
  | nil => intro _; rfl
  | cons c rest ih =>
      intro h
      have hc := h c (by simp)
      have hr := ih (fun x hx => h x (by simp [hx]))
      rcases hc with hc | hc <;> simp [_run_docker_command, hc, hr]

/-- When the docker CLI is present for every container, the command loop
signals exactly the listed containers. -/
theorem run_docker_signals_all (outcome : String → DockerRes) :
    ∀ l : List String, (∀ c ∈ l, outcome c ≠ .cliMissing) →
      (_run_docker_command outcome l).2 = l := by
  intro l
  induction l with
  | nil => intro _; rfl
  | cons c rest ih =>
      intro h
      have hc := h c (by simp)
      have hr := ih (fun x hx => h x (by simp [hx]))
      cases hco : outcome c
      case cliMissing => exact absurd hco hc
      all_goals simp [_run_docker_command, hco, hr]

/-- C1 (counterexample): when the stop signal for the containers fails
(here: times out), the critical section succeeds, and starting would
work, `metabase_paused` issues no start signal at all — `resume` is
skipped because `paused` is false, contradicting the claim that a start
signal is issued even when the stop signal failed. -/
theorem claim_C1_counterexample :
    (metabase_paused (fun _ => DockerRes.timeout) (fun _ => DockerRes.exitOk)
        (.ok ())).startSignaled = [] ∧
      (metabase_paused (fun _ => DockerRes.timeout) (fun _ => DockerRes.exitOk)
        (.ok ())).paused = false :=
  ⟨rfl, rfl⟩

/-- C1 (amended): the cleanup block's start signals do not depend on
whether the critical section succeeded or raised, and — provided every
stop signal succeeded or failed only with "No such container" (so the
pause reported success) and the docker CLI is available for the start
signals — a start signal is issued to every listed reader process in
the guaranteed-cleanup block regardless of the critical section's
outcome.  (When the pause reports failure, no start signal is issued.) -/
theorem claim_C1 (stopOutcome startOutcome : String → DockerRes)
    (cs cs' : Except Unit Unit)
    (hstop : ∀ c ∈ METABASE_CONTAINERS,
      stopOutcome c = .exitOk ∨ stopOutcome c = .noSuch)
    (hstart : ∀ c ∈ METABASE_CONTAINERS, startOutcome c ≠ .cliMissing) :
    (metabase_paused stopOutcome startOutcome cs).startSignaled =
        (metabase_paused stopOutcome startOutcome cs').startSignaled ∧
      (metabase_paused stopOutcome startOutcome cs).startSignaled =
        METABASE_CONTAINERS := by
  have hp : (pause_metabase stopOutcome).1 = true :=
    run_docker_success_of stopOutcome METABASE_CONTAINERS hstop
  have hs : (resume_metabase startOutcome).2 = METABASE_CONTAINERS :=
    run_docker_signals_all startOutcome METABASE_CONTAINERS hstart
  constructor
  · rfl
  · simp [metabase_paused, hp, hs]

/-- C1 (witness): with clean stop and start signals, the same start
signals are issued for a succeeding and for a raising critical section,
and they reach both containers. -/
theorem claim_C1_witness :
    (metabase_paused (fun _ => DockerRes.exitOk) (fun _ => DockerRes.exitOk)
        (.ok ())).startSignaled =
      (metabase_paused (fun _ => DockerRes.exitOk) (fun _ => DockerRes.exitOk)
        (.error ())).startSignaled ∧
    (metabase_paused (fun _ => DockerRes.exitOk) (fun _ => DockerRes.exitOk)
        (.ok ())).startSignaled = METABASE_CONTAINERS :=
  claim_C1 (fun _ => DockerRes.exitOk) (fun _ => DockerRes.exitOk) (.ok ()) (.error ())
    (by decide) (by decide)

end MainPipeline

/-! ## Claim C2: watermark reads never raise -/

/-- File contents on which `HighWaterMark.get` stays inside its
`except` clause: a missing file, invalid JSON, or a JSON object whose
`last_extracted_at` is absent, falsy, or a string. -/
def hwmBenign : FileContent → Bool
  | .missing => true
  | .invalid => true
  | .json (.vobj fs) =>
      match pyGet fs "last_extracted_at" with
      | .vstr _ => true
      | v => !pyTruthy v
  | .json _ => false

/-- C2 (counterexample): the file content `"[]"` is valid JSON whose top
level is not an object; `HighWaterMark.get` raises `AttributeError` on
it (`data.get` on a list), so `get` does not return a value for every
possible file content. -/
theorem claim_C2_counterexample :
    HighWaterMark.get (FileContent.json (Value.varr [])) =
      .error PyErr.attributeError :=
  rfl

/-- C2 (amended): for every watermark-file content that is missing,
invalid JSON, or a JSON object whose `last_extracted_at` value is
absent, falsy, or a string, `HighWaterMark.get` returns a timestamp or
`None` and never raises.  (On valid JSON whose top level is not an
object it raises `AttributeError`; on a truthy non-string
`last_extracted_at` it raises `TypeError`.) -/
theorem claim_C2 (c : FileContent) (h : hwmBenign c = true) :
    ∃ r, HighWaterMark.get c = .ok r := by
  cases c with
  | missing => exact ⟨none, rfl⟩
  | invalid => exact ⟨none, rfl⟩
  | json v =>
      cases v with
      | vobj fs =>
          simp only [hwmBenign] at h
          simp only [HighWaterMark.get]
          cases hts : pyGet fs "last_extracted_at" with
          | vstr s =>
              cases hfi : fromisoformat s
              all_goals simp [hts, hfi]
              all_goals split
              all_goals simp
          | vnull => simp [hts, pyTruthy]
          | vbool b => rw [hts] at h; cases b <;> simp_all [pyTruthy]
          | vint n => rw [hts] at h; simp [pyTruthy] at h ⊢; simp [h]
          | vdt t => rw [hts] at h; simp [pyTruthy] at h
          | varr xs => rw [hts] at h; simp [pyTruthy] at h ⊢; simp [h]
          | vobj gs => rw [hts] at h; simp [pyTruthy] at h ⊢; simp [h]
      | vnull => simp [hwmBenign] at h
      | vbool b => simp [hwmBenign] at h
      | vint n => simp [hwmBenign] at h
      | vstr s => simp [hwmBenign] at h
      | vdt t => simp [hwmBenign] at h
      | varr xs => simp [hwmBenign] at h

/-- C2 (witness): a well-formed watermark file parses to a timestamp. -/
theorem claim_C2_witness :
    hwmBenign (.json (.vobj [("last_extracted_at",
        .vstr "2025-01-02T12:00:00")])) = true ∧
      ∃ r, HighWaterMark.get (.json (.vobj [("last_extracted_at",
        .vstr "2025-01-02T12:00:00")])) = .ok r :=
  ⟨rfl, claim_C2 _ rfl⟩

/-! ## Shared lemmas about the transformer -/

namespace DocumentTransformer

/-- Decomposition of `flatten_message` on a dict message. -/
theorem flatten_vobj_ok (fs : List (String × Value)) {role content raw : Value}
    (he : flatten_message (Value.vobj fs) = .ok (role, content, raw)) :
    role = pyGet fs "role" ∧
      flattenContent (pyGet fs "content") = .ok content ∧
      raw = (if pyTruthy (Value.vobj fs) then
          Value.vstr (jsonDumps (Value.vobj fs)) else Value.vnull) := by
  cases hc : flattenContent (pyGet fs "content") with
  | error e =>
      simp only [flatten_message, hc, Bind.bind, Except.bind] at he
      exact Except.noConfusion he
  | ok c =>
      simp only [flatten_message, hc, Bind.bind, Except.bind, pure,
        Except.pure, Except.ok.injEq, Prod.mk.injEq] at he
      obtain ⟨h1, h2, h3⟩ := he
      exact ⟨h1.symm, by rw [h2], h3.symm⟩

/-- A record returned by `transform` carries
`str(doc.get("_id", ""))` as `_id` and the parsed `ingestedAt` as
`ingested_at`. -/
theorem transform_ok_fields (doc : PyDict) (t : Int) {r : NormalizedRecord}
    (he : transform doc t = .ok r) :
    r._id = pyStr (pyGetD doc "_id" (Value.vstr "")) ∧
      r.ingested_at = parse_timestamp (pyGet doc "ingestedAt") := by
  cases hf : flatten_message (pyGet doc "message") with
  | error e =>
      simp only [transform, hf, Bind.bind, Except.bind] at he
      exact Except.noConfusion he
  | ok trip =>
      obtain ⟨a, b, c⟩ := trip
      simp only [transform, hf, Bind.bind, Except.bind, pure, Except.pure,
        Except.ok.injEq] at he
      rw [← he]
      exact ⟨rfl, rfl⟩

end DocumentTransformer

/-! ## Claim C9: raw serialization of dict messages -/

/-- C9 (counterexample): the empty dict is a message value that is an
object, yet `flatten_message` returns `raw = None` for it (the
`if message` guard is falsy on an empty dict), not the serialized
object — so `raw` is not always set in the object case. -/
theorem claim_C9_counterexample :
    DocumentTransformer.flatten_message (Value.vobj []) =
        .ok (.vnull, .vnull, .vnull) ∧
      Value.vnull ≠ Value.vstr (jsonDumps (Value.vobj [])) :=
  ⟨rfl, fun h => Value.noConfusion h⟩

/-- C9 (amended): for every message value that is a non-empty dict, a
successful `flatten_message` returns a `raw` field equal to the full
JSON serialization of the original message object; for the empty dict,
`raw` is `None`. -/
theorem claim_C9 (fs : List (String × Value)) (h : fs ≠ [])
    {role content raw : Value}
    (he : DocumentTransformer.flatten_message (Value.vobj fs) =
      .ok (role, content, raw)) :
    raw = Value.vstr (jsonDumps (Value.vobj fs)) := by
  have h3 := (DocumentTransformer.flatten_vobj_ok fs he).2.2
  have ht : pyTruthy (Value.vobj fs) = true := by
    cases fs with
    | nil => exact absurd rfl h
    | cons p l => simp [pyTruthy]
  rw [ht] at h3
  simpa using h3

/-- C9 (witness): a one-field dict message flattens with `raw` set to
its serialization. -/
theorem claim_C9_witness :
    ∃ t : Value × Value × Value,
      DocumentTransformer.flatten_message
          (Value.vobj [("role", Value.vstr "user")]) = .ok t ∧
        t.2.2 = Value.vstr (jsonDumps (Value.vobj [("role", Value.vstr "user")])) :=
  ⟨_, rfl, claim_C9 _ (by simp) rfl⟩

/-! ## Claim C8: the normalizer never raises -/

namespace DocumentTransformer

/-- Does a content block avoid the only raising path of the block loop
(a `text`-typed block whose `text` field is present but not a string)? -/
def blockTextOk (b : Value) : Bool :=
  match b with
  | .vobj bfs =>
      if isStrEq (pyGet bfs "type") "text" then
        match pyGetD bfs "text" (Value.vstr "") with
        | .vstr _ => true
        | _ => false
      else true
  | _ => true

/-- Does a `content` value avoid the raising path? -/
def contentTextOk (content0 : Value) : Bool :=
  match content0 with
  | .varr blocks => blocks.all blockTextOk
  | _ => true

/-- Does a `message` value avoid the raising path? -/
def msgTextOk (message : Value) : Bool :=
  match message with
  | .vobj fs => contentTextOk (pyGet fs "content")
  | _ => true

/-- Does a document avoid the raising path of `transform`? -/
def docTextOk (doc : PyDict) : Bool :=
  msgTextOk (pyGet doc "message")

/-- A part collected by the block loop from a `blockTextOk` block is a
string. -/
theorem partOf_vstr_of {b v : Value} (hb : blockTextOk b = true)
    (hp : partOf b = some v) : ∃ s, v = Value.vstr s := by
  cases b with
  | vobj bfs =>
      simp only [blockTextOk] at hb
      simp only [partOf] at hp
      by_cases h1 : isStrEq (pyGet bfs "type") "text"
      · rw [if_pos h1] at hb hp
        cases hv : pyGetD bfs "text" (Value.vstr "") with
        | vstr s =>
            rw [hv] at hp
            exact ⟨s, (Option.some.injEq _ _ ▸ hp).symm⟩
        | vnull => simp [hv] at hb
        | vbool b => simp [hv] at hb
        | vint n => simp [hv] at hb
        | vdt t => simp [hv] at hb
        | varr xs => simp [hv] at hb
        | vobj gs => simp [hv] at hb
      · rw [if_neg h1] at hp
        by_cases h2 : isStrEq (pyGet bfs "type") "tool_use"
        · rw [if_pos h2] at hp
          exact ⟨_, (Option.some.injEq _ _ ▸ hp).symm⟩
        · rw [if_neg h2] at hp
          by_cases h3 : isStrEq (pyGet bfs "type") "tool_result"
          · rw [if_pos h3] at hp
            exact ⟨_, (Option.some.injEq _ _ ▸ hp).symm⟩
          · rw [if_neg h3] at hp
            exact absurd hp (by simp)
  | vstr s => exact ⟨s, (Option.some.injEq _ _ ▸ hp).symm⟩
  | vnull => exact absurd hp (by simp [partOf])
  | vbool b => exact absurd hp (by simp [partOf])
  | vint n => exact absurd hp (by simp [partOf])
  | vdt t => exact absurd hp (by simp [partOf])
  | varr xs => exact absurd hp (by simp [partOf])

/-- The join's element traversal succeeds on all-string parts. -/
theorem pyJoinStrs_ok (parts : List Value)
    (h : ∀ v ∈ parts, ∃ s, v = Value.vstr s) :
    ∃ ss, pyJoinStrs parts = Except.ok ss := by
  induction parts with
  | nil => exact ⟨[], rfl⟩
  | cons v vs ih =>
      obtain ⟨ss, hss⟩ := ih (fun x hx => h x (List.mem_cons_of_mem v hx))
      obtain ⟨s, hs⟩ := h v (List.mem_cons_self v vs)
      subst hs
      exact ⟨s :: ss, by simp [pyJoinStrs, hss]⟩

/-- The newline join of all-string parts succeeds. -/
theorem pyJoin_ok (sep : String) (parts : List Value)
    (h : ∀ v ∈ parts, ∃ s, v = Value.vstr s) :
    ∃ s, pyJoin sep parts = .ok s := by
  obtain ⟨ss, hss⟩ := pyJoinStrs_ok parts h
  refine ⟨String.intercalate sep ss, ?_⟩
  simp [pyJoin, hss]

/-- `flattenContent` succeeds on content that avoids the raising path. -/
theorem flattenContent_ok (c : Value) (h : contentTextOk c = true) :
    ∃ v, flattenContent c = .ok v := by
  cases c with
  | varr blocks =>
      simp only [flattenContent]
      by_cases he : (blocks.filterMap partOf).isEmpty
      · exact ⟨Value.vnull, by rw [if_pos he]; rfl⟩
      · have hall : ∀ v ∈ blocks.filterMap partOf, ∃ s, v = Value.vstr s := by
          intro v hv
          obtain ⟨b, hb, hpb⟩ := List.mem_filterMap.mp hv
          have hbok : blockTextOk b = true := by
            simp only [contentTextOk] at h
            exact List.all_eq_true.mp h b hb
          exact partOf_vstr_of hbok hpb
        obtain ⟨s, hs⟩ := pyJoin_ok "\n" (blocks.filterMap partOf) hall
        refine ⟨Value.vstr s, ?_⟩
        rw [if_neg he]
        simp only [Bind.bind, Except.bind, hs]
        rfl
  | vnull => exact ⟨_, rfl⟩
  | vstr s => exact ⟨_, rfl⟩
  | vbool b => exact ⟨_, rfl⟩
  | vint n => exact ⟨_, rfl⟩
  | vdt t => exact ⟨_, rfl⟩
  | vobj gs => exact ⟨_, rfl⟩

/-- `flatten_message` succeeds on a message that avoids the raising
path. -/
theorem flatten_message_ok (m : Value) (h : msgTextOk m = true) :
    ∃ t, flatten_message m = .ok t := by
  cases m with
  | vobj fs =>
      obtain ⟨c, hc⟩ := flattenContent_ok (pyGet fs "content") h
      refine ⟨(pyGet fs "role", c,
        if pyTruthy (Value.vobj fs) then Value.vstr (jsonDumps (Value.vobj fs))
        else Value.vnull), ?_⟩
      simp only [flatten_message, hc]
      rfl
  | vnull => exact ⟨_, rfl⟩
  | vstr s => exact ⟨_, rfl⟩
  | vbool b => exact ⟨_, rfl⟩
  | vint n => exact ⟨_, rfl⟩
  | vdt t => exact ⟨_, rfl⟩
  | varr xs => exact ⟨_, rfl⟩

end DocumentTransformer

/-- C8 (counterexample): a document whose message contains a
`text`-typed block with a non-string `text` field (here the integer 5)
makes `transform` raise `TypeError` — the `"\n".join` receives a
non-string — so `transform` does not tolerate every shape of the
message field. -/
theorem claim_C8_counterexample :
    DocumentTransformer.transform
        [("message", Value.vobj [("role", Value.vstr "user"),
          ("content", Value.varr [Value.vobj [("type", Value.vstr "text"),
            ("text", Value.vint 5)]])])] 0 =
      .error PyErr.typeError :=
  rfl

/-- C8 (amended): for every source document whose `text`-typed content
blocks carry a string `text` field (when present) — in particular for
every document with absent, malformed, or arbitrarily-typed other
fields and unparseable timestamp strings — `transform` never raises
and returns a record whose `_id` is the (non-null) string
`str(doc.get("_id", ""))`. -/
theorem claim_C8 (doc : PyDict) (t : Int)
    (h : DocumentTransformer.docTextOk doc = true) :
    ∃ r, DocumentTransformer.transform doc t = .ok r ∧
      r._id = pyStr (pyGetD doc "_id" (Value.vstr "")) := by
  obtain ⟨trip, htrip⟩ :=
    DocumentTransformer.flatten_message_ok (pyGet doc "message") h
  cases he : DocumentTransformer.transform doc t with
  | ok r => exact ⟨r, rfl, (DocumentTransformer.transform_ok_fields doc t he).1⟩
  | error e =>
      obtain ⟨a, b, c⟩ := trip
      simp only [DocumentTransformer.transform, htrip, Bind.bind, Except.bind,
        pure, Except.pure] at he
      exact Except.noConfusion he

/-- C8 (witness): a document with an unparseable timestamp, a null
field, and a well-formed block list normalizes successfully with a
non-null id. -/
theorem claim_C8_witness :
    ∃ r, DocumentTransformer.transform
        [("_id", Value.vstr "abc"), ("timestamp", Value.vstr "not-a-date"),
          ("sessionId", Value.vnull),
          ("message", Value.vobj [("role", Value.vstr "user"),
            ("content", Value.varr [Value.vobj [("type", Value.vstr "text"),
              ("text", Value.vstr "hi")]])])] 7 = .ok r ∧
      r._id = pyStr (pyGetD
        [("_id", Value.vstr "abc"), ("timestamp", Value.vstr "not-a-date"),
          ("sessionId", Value.vnull),
          ("message", Value.vobj [("role", Value.vstr "user"),
            ("content", Value.varr [Value.vobj [("type", Value.vstr "text"),
              ("text", Value.vstr "hi")]])])] "_id" (Value.vstr "")) :=
  claim_C8 _ 7 rfl

/-! ## Claim C10: missing `_id` collapses under upsert -/

/-- C10 (confirmed): every document without an `_id` field normalizes to
a record whose id is the empty string, and two such records collapse to
a single row under the loader's upsert. -/
theorem claim_C10 (d1 d2 : PyDict) (t1 t2 : Int) {r1 r2 : NormalizedRecord}
    (h1 : getField d1 "_id" = none) (h2 : getField d2 "_id" = none)
    (e1 : DocumentTransformer.transform d1 t1 = .ok r1)
    (e2 : DocumentTransformer.transform d2 t2 = .ok r2) :
    r1._id = "" ∧ r2._id = "" ∧
      (DuckDBLoader.upsertAll [] [r1, r2]).length = 1 := by
  have hid1 := (DocumentTransformer.transform_ok_fields d1 t1 e1).1
  have hid2 := (DocumentTransformer.transform_ok_fields d2 t2 e2).1
  rw [show pyGetD d1 "_id" (Value.vstr "") = Value.vstr "" by
    simp [pyGetD, h1]] at hid1
  rw [show pyGetD d2 "_id" (Value.vstr "") = Value.vstr "" by
    simp [pyGetD, h2]] at hid2
  have hid1' : r1._id = "" := hid1
  have hid2' : r2._id = "" := hid2
  refine ⟨hid1', hid2', ?_⟩
  simp [DuckDBLoader.upsertAll, DuckDBLoader.upsertRow, hid1', hid2']

/-- C10 (witness): the empty document and a one-field document, both
without `_id`, produce records with id `""` that upsert into one row. -/
theorem claim_C10_witness :
    ∃ r1 r2, DocumentTransformer.transform [] 0 = .ok r1 ∧
      DocumentTransformer.transform [("type", Value.vstr "summary")] 0 = .ok r2 ∧
      r1._id = "" ∧ r2._id = "" ∧
      (DuckDBLoader.upsertAll [] [r1, r2]).length = 1 :=
  ⟨_, _, rfl, rfl,
    claim_C10 [] [("type", Value.vstr "summary")] 0 0 rfl rfl rfl rfl⟩

/-! ## Upsert machinery (claims C3 and C5) -/

namespace DuckDBLoader

/-- Row lookup by primary key (first matching row). -/
def lookupRow (t : List NormalizedRecord) (k : String) : Option NormalizedRecord :=
  t.find? (fun p => p._id = k)

/-- The last record of `rs` whose id is `k` (statement-level
application order decides collisions). -/
def lastMatch (rs : List NormalizedRecord) (k : String) : Option NormalizedRecord :=
  rs.foldl (fun a r => if r._id = k then some r else a) none

/-- Key-set evolution of one upsert. -/
def addKey (ks : List String) (k : String) : List String :=
  if k ∈ ks then ks else ks ++ [k]

theorem map_replace_keys (t : List NormalizedRecord) (r : NormalizedRecord) :
    (t.map (fun p => if p._id = r._id then r else p)).map NormalizedRecord._id =
      t.map NormalizedRecord._id := by
  induction t with
  | nil => rfl
  | cons p t ih => by_cases hp : p._id = r._id <;> simp [hp, ih]

theorem upsertRow_keys (t : List NormalizedRecord) (r : NormalizedRecord) :
    (upsertRow t r).map NormalizedRecord._id =
      addKey (t.map NormalizedRecord._id) r._id := by
  simp only [upsertRow, addKey]
  split
  · exact map_replace_keys t r
  · simp

theorem upsertAll_keys (rs : List NormalizedRecord) :
    ∀ t : List NormalizedRecord,
      (upsertAll t rs).map NormalizedRecord._id =
        rs.foldl (fun ks r => addKey ks r._id) (t.map NormalizedRecord._id) := by
  induction rs with
  | nil => intro t; rfl
  | cons r rs ih =>
      intro t
      simp only [upsertAll, List.foldl_cons]
      rw [show (List.foldl upsertRow (upsertRow t r) rs) =
        upsertAll (upsertRow t r) rs from rfl, ih, upsertRow_keys]

theorem addKey_mem_self (ks : List String) (k : String) : k ∈ addKey ks k := by
  unfold addKey
  split
  · assumption
  · simp

theorem addKey_subset (ks : List String) (k : String) : ks ⊆ addKey ks k := by
  intro x hx
  unfold addKey
  split
  · exact hx
  · exact List.mem_append_left _ hx

theorem foldl_addKey_mem (l : List String) :
    ∀ ks k, k ∈ ks ∨ k ∈ l → k ∈ l.foldl addKey ks := by
  induction l with
  | nil =>
      intro ks k h
      rcases h with h | h
      · exact h
      · exact absurd h (List.not_mem_nil k)
  | cons a l ih =>
      intro ks k h
      simp only [List.foldl_cons]
      apply ih
      rcases h with h | h
      · exact Or.inl (addKey_subset ks a h)
      · rcases List.mem_cons.mp h with rfl | h
        · exact Or.inl (addKey_mem_self ks k)
        · exact Or.inr h

theorem addKey_nodup (ks : List String) (k : String) (h : ks.Nodup) :
    (addKey ks k).Nodup := by
  unfold addKey
  split
  · exact h
  · next hn =>
      rw [List.nodup_append]
      refine ⟨h, List.nodup_singleton k, ?_⟩
      intro x hx hk
      rw [List.mem_singleton] at hk
      exact hn (hk ▸ hx)

theorem addKey_toFinset (ks : List String) (k : String) :
    (addKey ks k).toFinset = insert k ks.toFinset := by
  unfold addKey
  split
  · next hmem =>
      ext x
      simp only [List.mem_toFinset, Finset.mem_insert]
      constructor
      · exact fun hx => Or.inr hx
      · rintro (rfl | hx)
        · exact hmem
        · exact hx
  · ext x
    simp [or_comm]

theorem foldl_addKey_nodup (l : List String) :
    ∀ ks : List String, ks.Nodup → (l.foldl addKey ks).Nodup := by
  induction l with
  | nil => intro ks h; exact h
  | cons a l ih =>
      intro ks h
      simp only [List.foldl_cons]
      exact ih _ (addKey_nodup ks a h)

theorem foldl_addKey_toFinset (l : List String) :
    ∀ ks : List String, (l.foldl addKey ks).toFinset = ks.toFinset ∪ l.toFinset := by
  induction l with
  | nil => intro ks; simp
  | cons a l ih =>
      intro ks
      simp only [List.foldl_cons]
      rw [ih, addKey_toFinset]
      ext x
      simp only [Finset.mem_union, Finset.mem_insert, List.toFinset_cons]
      tauto

theorem lookupRow_some (t : List NormalizedRecord) (k : String)
    {x : NormalizedRecord} (h : lookupRow t k = some x) :
    x._id = k ∧ k ∈ t.map NormalizedRecord._id := by
  have h1 := List.find?_some h
  have h2 := List.mem_of_find?_eq_some h
  simp only [decide_eq_true_eq] at h1
  exact ⟨h1, h1 ▸ List.mem_map_of_mem NormalizedRecord._id h2⟩

theorem lookupRow_isSome_of_mem (t : List NormalizedRecord) (k : String)
    (h : k ∈ t.map NormalizedRecord._id) : (lookupRow t k).isSome := by
  induction t with
  | nil => simp at h
  | cons p t ih =>
      simp only [List.map_cons, List.mem_cons] at h
      by_cases hp : p._id = k
      · simp [lookupRow, List.find?_cons_of_pos, hp]
      · rcases h with h | h
        · exact absurd h.symm hp
        · simpa [lookupRow, List.find?_cons_of_neg, hp] using ih h

theorem lookupRow_replace (t : List NormalizedRecord) (r : NormalizedRecord)
    (k : String) :
    lookupRow (t.map (fun p => if p._id = r._id then r else p)) k =
      if r._id = k then (lookupRow t k).map (fun _ => r) else lookupRow t k := by
  induction t with
  | nil => by_cases h : r._id = k <;> simp [lookupRow, h]
  | cons p t ih =>
      by_cases hp : p._id = r._id
      · by_cases hk : r._id = k
        · simp [lookupRow, hp, hk]
        · have hpk : ¬ p._id = k := fun hc => hk (hp ▸ hc)
          simp only [lookupRow, List.map_cons, if_pos hp] at *
          rw [List.find?_cons_of_neg _ (by simpa using hk),
            List.find?_cons_of_neg _ (by simpa using hpk), ih, if_neg hk]
      · by_cases hk : p._id = k
        · by_cases hrk : r._id = k
          · exact absurd (hk.trans hrk.symm) hp
          · simp only [lookupRow, List.map_cons, if_neg hp] at *
            rw [List.find?_cons_of_pos _ (by simpa using hk),
              List.find?_cons_of_pos _ (by simpa using hk), if_neg hrk]
        · simp only [lookupRow, List.map_cons, if_neg hp] at *
          rw [List.find?_cons_of_neg _ (by simpa using hk),
            List.find?_cons_of_neg _ (by simpa using hk), ih]

theorem lookupRow_upsertRow (t : List NormalizedRecord) (r : NormalizedRecord)
    (k : String) :
    lookupRow (upsertRow t r) k =
      if r._id = k then some r else lookupRow t k := by
  unfold upsertRow
  split
  · next hmem =>
      rw [lookupRow_replace]
      by_cases hk : r._id = k
      · have := lookupRow_isSome_of_mem t r._id hmem
        rw [if_pos hk, if_pos hk, ← hk]
        obtain ⟨x, hx⟩ := Option.isSome_iff_exists.mp this
        rw [hx]
        rfl
      · rw [if_neg hk, if_neg hk]
  · next hmem =>
      unfold lookupRow
      rw [List.find?_append]
      by_cases hk : r._id = k
      · have hnone : t.find? (fun p => p._id = k) = none := by
          cases hfind : t.find? (fun p => p._id = k) with
          | none => rfl
          | some x =>
              have := lookupRow_some t k (x := x) hfind
              exact absurd (hk ▸ this.2) hmem
        rw [hnone]
        simp [hk]
      · cases hfind : t.find? (fun p => p._id = k) with
        | none => simp [hfind, hk]
        | some x => simp [hfind, hk]

theorem foldl_lastMatch (rs : List NormalizedRecord) (k : String) :
    ∀ a : Option NormalizedRecord,
      rs.foldl (fun a r => if r._id = k then some r else a) a =
        match lastMatch rs k with
        | some x => some x
        | none => a := by
  induction rs with
  | nil => intro a; rfl
  | cons r rs ih =>
      intro a
      simp only [List.foldl_cons, lastMatch]
      rw [ih, ih]
      by_cases hr : r._id = k
      · simp only [if_pos hr]
        cases lastMatch rs k <;> rfl
      · simp only [if_neg hr]
        cases lastMatch rs k <;> rfl

theorem lookupRow_upsertAll (rs : List NormalizedRecord) :
    ∀ (t : List NormalizedRecord) (k : String),
      lookupRow (upsertAll t rs) k =
        match lastMatch rs k with
        | some x => some x
        | none => lookupRow t k := by
  induction rs with
  | nil => intro t k; rfl
  | cons r rs ih =>
      intro t k
      have hstep : upsertAll t (r :: rs) = upsertAll (upsertRow t r) rs := rfl
      rw [hstep, ih]
      have hlm : lastMatch (r :: rs) k =
          match lastMatch rs k with
          | some x => some x
          | none => if r._id = k then some r else none := by
        show rs.foldl (fun a r => if r._id = k then some r else a)
          (if r._id = k then some r else none) = _
        rw [foldl_lastMatch]
      rw [hlm, lookupRow_upsertRow]
      cases lastMatch rs k with
      | some x => rfl
      | none =>
          by_cases hr : r._id = k <;> simp [hr]

theorem upsertAll_length_of_mem (rs : List NormalizedRecord) :
    ∀ t : List NormalizedRecord,
      (∀ r ∈ rs, r._id ∈ t.map NormalizedRecord._id) →
      (upsertAll t rs).length = t.length := by
  induction rs with
  | nil => intro t _; rfl
  | cons r rs ih =>
      intro t h
      have hmem := h r (List.mem_cons_self r rs)
      have hkeys : (upsertRow t r).map NormalizedRecord._id =
          t.map NormalizedRecord._id := by
        rw [upsertRow_keys]
        unfold addKey
        rw [if_pos hmem]
      have hlen : (upsertRow t r).length = t.length := by
        have := congrArg List.length hkeys
        simpa using this
      have hstep : upsertAll t (r :: rs) = upsertAll (upsertRow t r) rs := rfl
      rw [hstep, ih (upsertRow t r)
        (fun r' hr' => hkeys ▸ h r' (List.mem_cons_of_mem r hr')), hlen]

theorem mem_keys_upsertAll (rs : List NormalizedRecord)
    (t : List NormalizedRecord) {r : NormalizedRecord} (hr : r ∈ rs) :
    r._id ∈ (upsertAll t rs).map NormalizedRecord._id := by
  rw [upsertAll_keys, ← List.foldl_map NormalizedRecord._id addKey]
  exact foldl_addKey_mem _ _ _ (Or.inr (List.mem_map_of_mem _ hr))

theorem upsertAll_nil_length (rs : List NormalizedRecord) :
    (upsertAll [] rs).length = (rs.map NormalizedRecord._id).dedup.length := by
  have hlen : (upsertAll [] rs).length =
      ((upsertAll [] rs).map NormalizedRecord._id).length :=
    (List.length_map _ _).symm
  rw [hlen, upsertAll_keys, ← List.foldl_map NormalizedRecord._id addKey]
  generalize rs.map NormalizedRecord._id = ids
  have hnd : (ids.foldl addKey ([] : List String)).Nodup :=
    foldl_addKey_nodup ids [] List.nodup_nil
  have hfs : (ids.foldl addKey ([] : List String)).toFinset = ids.toFinset := by
    rw [foldl_addKey_toFinset]
    simp
  calc (ids.foldl addKey []).length
      = (ids.foldl addKey []).toFinset.card :=
        (List.toFinset_card_of_nodup hnd).symm
    _ = ids.toFinset.card := by rw [hfs]
    _ = ids.dedup.length := List.card_toFinset ids

end DuckDBLoader

/-! ## Claim C3: load idempotence -/

/-- C3 (confirmed): with the same records in intermediate storage, a
second (non-full-refresh) run of the loader's upsert leaves the
analytical table with the same row count and the same row value for
every id as the first run — no duplicate rows, last-write-wins values
stable. -/
theorem claim_C3 (t rs : List NormalizedRecord) :
    ((DuckDBLoader.load_from_iceberg
        (DuckDBLoader.load_from_iceberg t rs false).1 rs false).1).length =
      ((DuckDBLoader.load_from_iceberg t rs false).1).length ∧
    ∀ k, DuckDBLoader.lookupRow
        ((DuckDBLoader.load_from_iceberg
          (DuckDBLoader.load_from_iceberg t rs false).1 rs false).1) k =
      DuckDBLoader.lookupRow ((DuckDBLoader.load_from_iceberg t rs false).1) k := by
  have hload : ∀ u : List NormalizedRecord,
      (DuckDBLoader.load_from_iceberg u rs false).1 = DuckDBLoader.upsertAll u rs := by
    intro u
    simp [DuckDBLoader.load_from_iceberg]
  simp only [hload]
  constructor
  · exact DuckDBLoader.upsertAll_length_of_mem rs _
      (fun r hr => DuckDBLoader.mem_keys_upsertAll rs t hr)
  · intro k
    rw [DuckDBLoader.lookupRow_upsertAll, DuckDBLoader.lookupRow_upsertAll]
    cases hlm : DuckDBLoader.lastMatch rs k with
    | some x => rfl
    | none => rfl

/-! ## Claim C5: full-refresh row count -/

/-- A concrete record with the given id and message content (all other
columns null/zero). -/
def sampleRec (id : String) (content : Value) : NormalizedRecord :=
  { _id := id, type := .vnull, session_id := .vnull, project_id := .vnull,
    timestamp := none, ingested_at := none, extracted_at := 0,
    message_role := .vnull, message_content := content, message_raw := .vnull,
    source_file := .vnull, date := 0 }

/-- C5 (counterexample): with two records sharing the id `"a"` in
intermediate storage, a full-refresh load leaves 1 row, not 2 — the
row count equals the number of distinct ids, not the number of
records. -/
theorem claim_C5_counterexample :
    ((DuckDBLoader.load_from_iceberg []
        [sampleRec "a" (.vstr "x"), sampleRec "a" (.vstr "y")] true).1).length = 1 ∧
      [sampleRec "a" (.vstr "x"), sampleRec "a" (.vstr "y")].length = 2 :=
  ⟨rfl, rfl⟩

/-- C5 (amended): for every starting table state and every set of
records in intermediate storage, `load(full_refresh=true)` followed by
the row-count query yields exactly the number of *distinct record ids*
in intermediate storage, independent of what existed before (equal to
the record count only when ids are unique). -/
theorem claim_C5 (t rs : List NormalizedRecord) :
    ((DuckDBLoader.load_from_iceberg t rs true).1).length =
      (rs.map NormalizedRecord._id).dedup.length := by
  have : (DuckDBLoader.load_from_iceberg t rs true).1 =
      DuckDBLoader.upsertAll [] rs := by
    simp [DuckDBLoader.load_from_iceberg]
  rw [this]
  exact DuckDBLoader.upsertAll_nil_length rs

/-! ## Claim C6: lock retry schedule -/

namespace DuckDBLoader

/-- A lock-classified outcome is an `IOException` with a lock message. -/
theorem isLockOutcome_elim {o : ConnOutcome} (h : isLockOutcome o = true) :
    ∃ m, o = .ioError m ∧ isLockMsg m = true := by
  cases o with
  | success => simp [isLockOutcome] at h
  | ioError m => exact ⟨m, rfl, h⟩

end DuckDBLoader

/-- C6 (confirmed): `connect` retries only lock-classified errors, with
at most `LOCK_RETRY_MAX_ATTEMPTS = 5` attempts and sleeps of 2, 4, 8,
16 and 30 seconds after the failed attempts (base 2 s doubled per
attempt, capped at 30 s); a non-lock error — after any number of
leading lock errors — is raised immediately with no further attempt;
and when all 5 attempts fail with lock errors the last lock error is
raised after the full sleep schedule. -/
theorem claim_C6 (f : Nat → DuckDBLoader.ConnOutcome) :
    (∀ k, k < DuckDBLoader.LOCK_RETRY_MAX_ATTEMPTS →
        (∀ j, j < k → DuckDBLoader.isLockOutcome (f j) = true) →
        f k = .success →
        DuckDBLoader.connect f = (.ok k, [2, 4, 8, 16, 30].take k)) ∧
    (∀ k m, k < DuckDBLoader.LOCK_RETRY_MAX_ATTEMPTS →
        (∀ j, j < k → DuckDBLoader.isLockOutcome (f j) = true) →
        f k = .ioError m → DuckDBLoader.isLockMsg m = false →
        DuckDBLoader.connect f = (.error (some m), [2, 4, 8, 16, 30].take k)) ∧
    ((∀ j, j < DuckDBLoader.LOCK_RETRY_MAX_ATTEMPTS →
        DuckDBLoader.isLockOutcome (f j) = true) →
      ∃ m, f 4 = .ioError m ∧
        DuckDBLoader.connect f = (.error (some m), [2, 4, 8, 16, 30])) := by
  have hB : DuckDBLoader.LOCK_RETRY_MAX_ATTEMPTS = 5 := rfl
  refine ⟨?_, ?_, ?_⟩
  · intro k hk hpre hsucc
    rw [hB] at hk
    interval_cases k
    · simp [DuckDBLoader.connect, DuckDBLoader.connectLoop, hsucc]
    · obtain ⟨m0, hf0, hl0⟩ :=
        DuckDBLoader.isLockOutcome_elim (hpre 0 (by norm_num))
      simp [DuckDBLoader.connect, DuckDBLoader.connectLoop, hf0, hl0, hsucc,
        DuckDBLoader.retryDelay, DuckDBLoader.LOCK_RETRY_BASE_DELAY,
        DuckDBLoader.LOCK_RETRY_MAX_DELAY]
    · obtain ⟨m0, hf0, hl0⟩ :=
        DuckDBLoader.isLockOutcome_elim (hpre 0 (by norm_num))
      obtain ⟨m1, hf1, hl1⟩ :=
        DuckDBLoader.isLockOutcome_elim (hpre 1 (by norm_num))
      simp [DuckDBLoader.connect, DuckDBLoader.connectLoop, hf0, hl0, hf1, hl1,
        hsucc, DuckDBLoader.retryDelay, DuckDBLoader.LOCK_RETRY_BASE_DELAY,
        DuckDBLoader.LOCK_RETRY_MAX_DELAY]
    · obtain ⟨m0, hf0, hl0⟩ :=
        DuckDBLoader.isLockOutcome_elim (hpre 0 (by norm_num))
      obtain ⟨m1, hf1, hl1⟩ :=
        DuckDBLoader.isLockOutcome_elim (hpre 1 (by norm_num))
      obtain ⟨m2, hf2, hl2⟩ :=
        DuckDBLoader.isLockOutcome_elim (hpre 2 (by norm_num))
      simp [DuckDBLoader.connect, DuckDBLoader.connectLoop, hf0, hl0, hf1, hl1,
        hf2, hl2, hsucc, DuckDBLoader.retryDelay,
        DuckDBLoader.LOCK_RETRY_BASE_DELAY, DuckDBLoader.LOCK_RETRY_MAX_DELAY]
    · obtain ⟨m0, hf0, hl0⟩ :=
        DuckDBLoader.isLockOutcome_elim (hpre 0 (by norm_num))
      obtain ⟨m1, hf1, hl1⟩ :=
        DuckDBLoader.isLockOutcome_elim (hpre 1 (by norm_num))
      obtain ⟨m2, hf2, hl2⟩ :=
        DuckDBLoader.isLockOutcome_elim (hpre 2 (by norm_num))
      obtain ⟨m3, hf3, hl3⟩ :=
        DuckDBLoader.isLockOutcome_elim (hpre 3 (by norm_num))
      simp [DuckDBLoader.connect, DuckDBLoader.connectLoop, hf0, hl0, hf1, hl1,
        hf2, hl2, hf3, hl3, hsucc, DuckDBLoader.retryDelay,
        DuckDBLoader.LOCK_RETRY_BASE_DELAY, DuckDBLoader.LOCK_RETRY_MAX_DELAY]
  · intro k m hk hpre hio hnl
    rw [hB] at hk
    interval_cases k
    · simp [DuckDBLoader.connect, DuckDBLoader.connectLoop, hio, hnl]
    · obtain ⟨m0, hf0, hl0⟩ :=
        DuckDBLoader.isLockOutcome_elim (hpre 0 (by norm_num))
      simp [DuckDBLoader.connect, DuckDBLoader.connectLoop, hf0, hl0, hio, hnl,
        DuckDBLoader.retryDelay, DuckDBLoader.LOCK_RETRY_BASE_DELAY,
        DuckDBLoader.LOCK_RETRY_MAX_DELAY]
    · obtain ⟨m0, hf0, hl0⟩ :=
        DuckDBLoader.isLockOutcome_elim (hpre 0 (by norm_num))
      obtain ⟨m1, hf1, hl1⟩ :=
        DuckDBLoader.isLockOutcome_elim (hpre 1 (by norm_num))
      simp [DuckDBLoader.connect, DuckDBLoader.connectLoop, hf0, hl0, hf1, hl1,
        hio, hnl, DuckDBLoader.retryDelay, DuckDBLoader.LOCK_RETRY_BASE_DELAY,
        DuckDBLoader.LOCK_RETRY_MAX_DELAY]
    · obtain ⟨m0, hf0, hl0⟩ :=
        DuckDBLoader.isLockOutcome_elim (hpre 0 (by norm_num))
      obtain ⟨m1, hf1, hl1⟩ :=
        DuckDBLoader.isLockOutcome_elim (hpre 1 (by norm_num))
      obtain ⟨m2, hf2, hl2⟩ :=
        DuckDBLoader.isLockOutcome_elim (hpre 2 (by norm_num))
      simp [DuckDBLoader.connect, DuckDBLoader.connectLoop, hf0, hl0, hf1, hl1,
        hf2, hl2, hio, hnl, DuckDBLoader.retryDelay,
        DuckDBLoader.LOCK_RETRY_BASE_DELAY, DuckDBLoader.LOCK_RETRY_MAX_DELAY]
    · obtain ⟨m0, hf0, hl0⟩ :=
        DuckDBLoader.isLockOutcome_elim (hpre 0 (by norm_num))
      obtain ⟨m1, hf1, hl1⟩ :=
        DuckDBLoader.isLockOutcome_elim (hpre 1 (by norm_num))
      obtain ⟨m2, hf2, hl2⟩ :=
        DuckDBLoader.isLockOutcome_elim (hpre 2 (by norm_num))
      obtain ⟨m3, hf3, hl3⟩ :=
        DuckDBLoader.isLockOutcome_elim (hpre 3 (by norm_num))
      simp [DuckDBLoader.connect, DuckDBLoader.connectLoop, hf0, hl0, hf1, hl1,
        hf2, hl2, hf3, hl3, hio, hnl, DuckDBLoader.retryDelay,
        DuckDBLoader.LOCK_RETRY_BASE_DELAY, DuckDBLoader.LOCK_RETRY_MAX_DELAY]
  · intro h
    rw [hB] at h
    obtain ⟨m0, hf0, hl0⟩ := DuckDBLoader.isLockOutcome_elim (h 0 (by norm_num))
    obtain ⟨m1, hf1, hl1⟩ := DuckDBLoader.isLockOutcome_elim (h 1 (by norm_num))
    obtain ⟨m2, hf2, hl2⟩ := DuckDBLoader.isLockOutcome_elim (h 2 (by norm_num))
    obtain ⟨m3, hf3, hl3⟩ := DuckDBLoader.isLockOutcome_elim (h 3 (by norm_num))
    obtain ⟨m4, hf4, hl4⟩ := DuckDBLoader.isLockOutcome_elim (h 4 (by norm_num))
    refine ⟨m4, hf4, ?_⟩
    simp [DuckDBLoader.connect, DuckDBLoader.connectLoop, hf0, hl0, hf1, hl1,
      hf2, hl2, hf3, hl3, hf4, hl4, DuckDBLoader.retryDelay,
      DuckDBLoader.LOCK_RETRY_BASE_DELAY, DuckDBLoader.LOCK_RETRY_MAX_DELAY]

/-- C6 (witness): two lock errors then success — `connect` succeeds on
the third attempt after sleeping 2 s and 4 s; and a lone non-lock error
is raised with no retry and no sleep. -/
theorem claim_C6_witness :
    DuckDBLoader.connect (fun n => if n < 2 then
        .ioError "database is locked" else .success) = (.ok 2, [2, 4]) ∧
      DuckDBLoader.connect (fun _ => .ioError "permission denied") =
        (.error (some "permission denied"), []) :=
  ⟨(claim_C6 _).1 2 (by decide) (by decide) (by decide),
    (claim_C6 _).2.1 0 "permission denied" (by decide)
      (fun j hj => absurd hj (Nat.not_lt_zero j)) rfl (by decide)⟩

/-! ## Extractor lemmas (claims C4 and C7) -/

namespace IcebergExtractor

open DocumentTransformer

/-- On a successful run, `latest_ingested_at` is the fold of the
per-document ingestion timestamps over the consumed documents. -/
theorem extractGo_ok_latest (bs : Nat) (wo : Nat → Bool) (t : Int) :
    ∀ (ds : List PyDict) (batch : List NormalizedRecord) (latest : Option Int)
      (total w : Nat) (l : Option Int) (n : Nat),
      extractGo bs wo t ds batch latest total w = .ok (l, n) →
      l = ds.foldl (fun a d => maxStep a (ingestedOf d)) latest := by
  intro ds
  induction ds with
  | nil =>
      intro batch latest total w l n h
      simp only [extractGo] at h
      by_cases hb : batch.isEmpty
      · rw [if_pos hb] at h
        simp only [Except.ok.injEq, Prod.mk.injEq] at h
        exact h.1.symm
      · rw [if_neg hb] at h
        by_cases hw : wo w
        · rw [if_pos hw] at h
          simp only [Except.ok.injEq, Prod.mk.injEq] at h
          exact h.1.symm
        · rw [if_neg hw] at h
          exact Except.noConfusion h
  | cons d ds ih =>
      intro batch latest total w l n h
      simp only [extractGo] at h
      cases htr : transform d t with
      | error e =>
          rw [htr] at h
          simp only [Bind.bind, Except.bind] at h
          exact Except.noConfusion h
      | ok r =>
          rw [htr] at h
          simp only [Bind.bind, Except.bind] at h
          have hing : r.ingested_at = ingestedOf d :=
            (transform_ok_fields d t htr).2
          simp only [List.foldl_cons, ← hing]
          by_cases hlen : (batch ++ [r]).length ≥ bs
          · rw [if_pos hlen] at h
            by_cases hw : wo w
            · rw [if_pos hw] at h
              exact ih [] (maxStep latest r.ingested_at) (total + 1) (w + 1) l n h
            · rw [if_neg hw] at h
              exact Except.noConfusion h
          · rw [if_neg hlen] at h
            exact ih (batch ++ [r]) (maxStep latest r.ingested_at) (total + 1) w l n h

/-- The watermark equation of one extraction run: the store is left at
`wm0` unless the run succeeded and observed a non-null ingestion
timestamp, in which case it holds the maximum observed ingestion
timestamp. -/
theorem extract_wm_eq (bs : Nat) (wo : Nat → Bool) (coll : List PyDict)
    (fb : Bool) (t : Int) (wm0 : Option Int) :
    (extract bs wo coll fb t wm0).1 =
      match (extract bs wo coll fb t wm0).2,
        maxIngested (_fetch_documents coll (if fb then none else wm0)) with
      | .ok _, some m => some m
      | _, _ => wm0 := by
  cases hE : extractGo bs wo t
      (_fetch_documents coll (if fb then none else wm0)) [] none 0 0 with
  | error e => simp [extract, hE]
  | ok p =>
      obtain ⟨latest, total⟩ := p
      have hl := extractGo_ok_latest bs wo t _ [] none 0 0 latest total hE
      have hmi : maxIngested (_fetch_documents coll (if fb then none else wm0)) =
          latest := hl.symm
      cases hlat : latest with
      | some m => simp [extract, hE, hmi, hlat]
      | none => simp [extract, hE, hmi, hlat]

/-- Sorted-insert membership. -/
theorem mem_insertSorted {x d : PyDict} :
    ∀ l : List PyDict, x ∈ insertSorted d l ↔ x = d ∨ x ∈ l := by
  intro l
  induction l with
  | nil => simp [insertSorted]
  | cons y l ih =>
      simp only [insertSorted]
      by_cases hle : ingLe d y
      · rw [if_pos hle]
        simp
      · rw [if_neg hle]
        simp only [List.mem_cons, ih]
        tauto

/-- Sorting preserves membership. -/
theorem mem_sortByIngested {x : PyDict} :
    ∀ l : List PyDict, x ∈ sortByIngested l ↔ x ∈ l := by
  intro l
  induction l with
  | nil => simp [sortByIngested]
  | cons d l ih =>
      have hstep : sortByIngested (d :: l) = insertSorted d (sortByIngested l) := rfl
      rw [hstep, mem_insertSorted]
      simp [ih, eq_comm]

/-- Every document fetched with a watermark filter has an ingestion
timestamp strictly greater than the watermark. -/
theorem fetch_gt (coll : List PyDict) (W : Int) {d : PyDict}
    (hd : d ∈ _fetch_documents coll (some W)) :
    ∀ v, ingestedOf d = some v → W < v := by
  intro v hv
  have hmem : d ∈ coll.filter (mongoMatches (some W)) :=
    (mem_sortByIngested _).mp hd
  have hmatch : mongoMatches (some W) d = true := (List.mem_filter.mp hmem).2
  simp only [mongoMatches] at hmatch
  cases hg : getField d "ingestedAt" with
  | none => rw [hg] at hmatch; exact absurd hmatch (by simp)
  | some val =>
      rw [hg] at hmatch
      cases val with
      | vdt ts =>
          have hpy : pyGet d "ingestedAt" = Value.vdt ts := by
            simp [pyGet, hg]
          rw [show ingestedOf d = parse_timestamp (pyGet d "ingestedAt") from rfl,
            hpy] at hv
          simp only [parse_timestamp, Option.some.injEq] at hv
          simp only [decide_eq_true_eq] at hmatch
          exact hv ▸ hmatch
      | vnull => exact absurd hmatch (by simp)
      | vbool b => exact absurd hmatch (by simp)
      | vint n => exact absurd hmatch (by simp)
      | vstr s => exact absurd hmatch (by simp)
      | varr xs => exact absurd hmatch (by simp)
      | vobj gs => exact absurd hmatch (by simp)

/-- If every consumed document's ingestion timestamp exceeds `W` then so
does the fold's result. -/
theorem maxfold_gt (W : Int) :
    ∀ l : List PyDict, ∀ acc : Option Int,
      (∀ d ∈ l, ∀ v, ingestedOf d = some v → W < v) →
      (∀ a, acc = some a → W < a) →
      ∀ m, l.foldl (fun a d => maxStep a (ingestedOf d)) acc = some m → W < m := by
  intro l
  induction l with
  | nil => intro acc _ hacc m h; exact hacc m h
  | cons d l ih =>
      intro acc hl hacc m h
      simp only [List.foldl_cons] at h
      refine ih (maxStep acc (ingestedOf d))
        (fun d' hd' => hl d' (List.mem_cons_of_mem d hd')) ?_ m h
      intro a ha
      cases hio : ingestedOf d with
      | none =>
          rw [hio] at ha
          exact hacc a ha
      | some x =>
          have hx := hl d (List.mem_cons_self d l) x hio
          rw [hio] at ha
          cases acc with
          | none =>
              simp only [maxStep, Option.some.injEq] at ha
              exact ha ▸ hx
          | some b =>
              have hb := hacc b rfl
              simp only [maxStep, Option.some.injEq] at ha
              by_cases hxb : x > b
              · rw [if_pos hxb] at ha; exact ha ▸ hx
              · rw [if_neg hxb] at ha; exact ha ▸ hb

end IcebergExtractor

/-! ## Claim C4: watermark durability contract -/

/-- C4 (confirmed): after any extraction run, the watermark store equals
its old content unless the run succeeded (every batch flush and every
transform completed) and at least one record had a non-null ingestion
timestamp, in which case it equals the maximum ingestion timestamp
observed in the run (a fold over the fetched documents, never the
extraction time); in particular, if any flush raises, the watermark is
left unchanged. -/
theorem claim_C4 (bs : Nat) (wo : Nat → Bool) (coll : List PyDict)
    (fb : Bool) (t : Int) (wm0 : Option Int) :
    (IcebergExtractor.extract bs wo coll fb t wm0).1 =
      match (IcebergExtractor.extract bs wo coll fb t wm0).2,
        IcebergExtractor.maxIngested
          (IcebergExtractor._fetch_documents coll (if fb then none else wm0)) with
      | .ok _, some m => some m
      | _, _ => wm0 :=
  IcebergExtractor.extract_wm_eq bs wo coll fb t wm0

/-! ## Claim C7: watermark monotonicity -/

/-- C7 (confirmed): a successful non-full-backfill run that starts from
watermark `W` and writes a new watermark `M` satisfies `W ≤ M`: the
source query filters strictly greater than `W`, so every observed
ingestion timestamp — and hence their maximum — exceeds `W`. -/
theorem claim_C7 (bs : Nat) (wo : Nat → Bool) (coll : List PyDict)
    (t W M : Int) (n : Nat)
    (hok : (IcebergExtractor.extract bs wo coll false t (some W)).2 = .ok n)
    (hwm : (IcebergExtractor.extract bs wo coll false t (some W)).1 = some M) :
    W ≤ M := by
  have heq := IcebergExtractor.extract_wm_eq bs wo coll false t (some W)
  rw [hok, hwm] at heq
  simp only [Bool.false_eq_true, if_false] at heq
  cases hmi : IcebergExtractor.maxIngested
      (IcebergExtractor._fetch_documents coll (some W)) with
  | none =>
      rw [hmi] at heq
      simp only [Option.some.injEq] at heq
      exact le_of_eq heq.symm
  | some m =>
      rw [hmi] at heq
      simp only [Option.some.injEq] at heq
      have hgt : W < m :=
        IcebergExtractor.maxfold_gt W _ none
          (fun d hd => IcebergExtractor.fetch_gt coll W hd)
          (fun a ha => Option.noConfusion ha) m hmi
      exact le_of_lt (heq ▸ hgt)

/-- C7 (witness): one document ingested at 10, starting watermark 5:
the run succeeds and the new watermark 10 satisfies `5 ≤ 10`. -/
theorem claim_C7_witness : (5 : Int) ≤ 10 :=
  claim_C7 10 (fun _ => true)
    [[("_id", Value.vstr "a"), ("ingestedAt", Value.vdt 10)]] 0 5 10 1 rfl rfl

end Analytics
